import Mathlib

/-!
Shallow embedding of the evo-rs genome virtual machine (src/genome.rs,
src/animal.rs, src/config.rs, src/plant.rs).

Modelling conventions:
  * Rust `f32` values are modelled as `ℚ` with exact arithmetic; the claims
    under study do not depend on floating-point rounding.
  * Rust `u32`/`usize` are modelled as `ℕ`; `saturating_sub` is `Nat`
    subtraction, which saturates at zero.
  * The source applies movement by rotating unit vectors with `f32`
    quaternion trigonometry; sine/cosine of an arbitrary angle is not
    exactly representable, so the embedding records each clamped, signed
    movement distance and each clamped turn angle as a pose-delta effect
    (the spec's own recommended modelling, spec design notes) while keeping
    `translation` fixed at its start-of-tick value.  No claim inspects the
    numeric pose produced by movement.
  * The `distance(p, q) <= EAT_DISTANCE` test of the source is modelled as
    the equivalent squared-distance comparison to avoid square roots.
  * Randomness (`rand::thread_rng`) is modelled by an oracle recording the
    outcome of every draw, so theorems quantifying over oracles cover every
    outcome of the random draws.
-/

set_option maxRecDepth 100000

namespace EvoRs

/-! ## Configuration constants (src/config.rs) -/

def MUTATION_RATE : ℕ := 1

def DUPLICATION_RATE : ℕ := 1

def DELETION_RATE : ℕ := 1

def SPLIT_ENERGY_COST : ℕ := 10

def EAT_DISTANCE : ℚ := 10

def EAT_AMOUNT : ℕ := 20

def MAX_MOVEMENT_SPEED : ℚ := 1/2

def MAX_ANGULAR_VELOCITY : ℚ := 5

def MAX_INSTRUCTIONS_PER_FRAME : ℕ := 10

/-! ## Stack values (src/genome.rs, `StackValue`) -/

/-- Tagged stack value: `Float` (an `f32`, modelled as `ℚ`) or `Bool`. -/
inductive StackValue where
  | Float (v : ℚ)
  | Bool (b : Bool)
  deriving DecidableEq, Repr

/-- Rust `StackValue::as_float`. -/
def StackValue.as_float : StackValue → Option ℚ
  | .Float f => some f
  | _ => none

/-- Lean's `Bool` under a name usable inside the `StackValue` namespace,
where the bare name `Bool` resolves to the constructor `StackValue.Bool`. -/
abbrev BoolTy := Bool

/-- Rust `StackValue::as_bool`. -/
def StackValue.as_bool : StackValue → Option BoolTy
  | .Bool b => some b
  | _ => none

/-! ## Word set (src/genome.rs, `Word`) -/

/-- The instruction vocabulary of the stack machine, one constructor per
Rust enum variant. -/
inductive Word where
  | Dup
  | Drop
  | Swap
  | Over
  | Rot
  | PushFloat (v : ℚ)
  | PushBool (b : Bool)
  | SmellFront
  | SmellBack
  | SmellLeft
  | SmellRight
  | Energy
  | Add
  | Sub
  | Mul
  | Div
  | Lt
  | Gt
  | Eq
  | And
  | Or
  | Not
  | If
  | Then
  | Else
  | Label0
  | Label1
  | Label2
  | Label3
  | Jump0
  | Jump1
  | Jump2
  | Jump3
  | MoveForward
  | MoveBackward
  | TurnLeft
  | TurnRight
  | Eat
  | Split
  | Nop
  deriving DecidableEq, Repr

/-! ## Genome mutation (src/genome.rs, `Genome::mutate` and
`Genome::balance_control_flow`) -/

/-- Removes the first occurrence of `Then` from a word list, if any. -/
def removeFirstThen : List Word → List Word
  | [] => []
  | w :: rest => if w = Word.Then then rest else w :: removeFirstThen rest

/-- One iteration of the excess-`Then` removal loop of
`balance_control_flow`: `words.iter().rposition(|w| *w == Word::Then)`
followed by `words.remove(pos)` removes the last occurrence of `Then`. -/
def removeLastThen (ws : List Word) : List Word :=
  (removeFirstThen ws.reverse).reverse

/-- Runs the excess-`Then` removal loop `k` times. -/
def removeThens : ℕ → List Word → List Word
  | 0, ws => ws
  | k + 1, ws => removeThens k (removeLastThen ws)

/-- Rust `Genome::balance_control_flow`.  The source counts `If` and `Then`
words, then runs one loop appending `Then`s while the `Then` count is below
the `If` count, then one loop removing the last `Then` while the `Then`
count exceeds the `If` count.  At most one of the loops iterates, so the
function appends `ifC - thenC` `Then`s and removes `thenC - ifC` trailing
`Then`s (both with saturating subtraction). -/
def balance_control_flow (ws : List Word) : List Word :=
  let ifC := ws.count Word.If
  let thenC := ws.count Word.Then
  removeThens (thenC - ifC) (ws ++ List.replicate (ifC - thenC) Word.Then)

/-- Oracle recording the outcome of every random draw consumed by
`Genome::mutate`: the `gen_range(0..100)` draws for deletion, mutation and
duplication of the word at each source index, the replacement word produced
by `Word::random()` at each source index, and the fallback word pushed when
the result would be empty.  `rand_word` ranges over all of `Word`, an
over-approximation of the support of `Word::random()`. -/
structure MutOracle where
  del_draw : ℕ → ℕ
  mut_draw : ℕ → ℕ
  dup_draw : ℕ → ℕ
  rand_word : ℕ → Word
  fallback_word : Word

/-- The per-word body of the `for &word in &self.words` loop of
`Genome::mutate`, indexed by source position `i`. -/
def mutateScan (o : MutOracle) : ℕ → List Word → List Word
  | _, [] => []
  | i, w :: rest =>
    if o.del_draw i < DELETION_RATE then
      mutateScan o (i + 1) rest
    else
      let word_to_add := if o.mut_draw i < MUTATION_RATE then o.rand_word i else w
      if o.dup_draw i < DUPLICATION_RATE then
        word_to_add :: word_to_add :: mutateScan o (i + 1) rest
      else
        word_to_add :: mutateScan o (i + 1) rest

/-- Rust `Genome::mutate`: per-word deletion / substitution / duplication,
then the emptiness fallback, then control-flow rebalancing. -/
def Genome.mutate (o : MutOracle) (ws : List Word) : List Word :=
  let new_words := mutateScan o 0 ws
  let new_words := if new_words = [] then [o.fallback_word] else new_words
  balance_control_flow new_words

/-! ## Executor state (src/genome.rs, `GenomeExecutor`) -/

/-- Rust `IfContext` (carried on the executor's `if_stack`; never read by
`execute_word`, which resolves branches through the jump table). -/
structure IfContext where
  if_position : ℕ
  else_position : Option ℕ
  then_position : Option ℕ
  condition_result : Bool
  in_else_branch : Bool
  deriving DecidableEq, Repr

/-- Rust `GenomeExecutor`: per-agent VM state.  The stack is a list with
its head as the top (Rust `Vec` push/pop act on the same end). -/
structure GenomeExecutor where
  instruction_pointer : ℕ
  stack : List StackValue
  instructions_executed_this_frame : ℕ
  max_instructions_per_frame : ℕ
  if_stack : List IfContext
  jump_table : List (ℕ × Option ℕ × ℕ)
  label_table : Fin 4 → Option ℕ

/-- Rust `GenomeExecutor::new`. -/
def GenomeExecutor.new (energy : ℕ) : GenomeExecutor where
  instruction_pointer := 0
  stack := []
  instructions_executed_this_frame := 0
  max_instructions_per_frame := min (energy * 1) MAX_INSTRUCTIONS_PER_FRAME
  if_stack := []
  jump_table := []
  label_table := fun _ => none

/-- Rust `GenomeExecutor::reset_for_frame`: keeps pointer and stack,
clears the if-stack and per-frame counter, rederives the budget. -/
def GenomeExecutor.reset_for_frame (ex : GenomeExecutor) (energy : ℕ) : GenomeExecutor :=
  { ex with
    if_stack := []
    instructions_executed_this_frame := 0
    max_instructions_per_frame := min (energy * 1) MAX_INSTRUCTIONS_PER_FRAME }

/-- Rust `GenomeExecutor::can_execute`. -/
def GenomeExecutor.can_execute (ex : GenomeExecutor) : Prop :=
  ex.instructions_executed_this_frame < ex.max_instructions_per_frame

instance (ex : GenomeExecutor) : Decidable ex.can_execute :=
  inferInstanceAs (Decidable (_ < _))

/-- Rust `GenomeExecutor::advance`: increment the pointer, wrap past the
end of the genome, count one executed instruction. -/
def GenomeExecutor.advance (ex : GenomeExecutor) (genome_len : ℕ) : GenomeExecutor :=
  let ip := ex.instruction_pointer + 1
  { ex with
    instruction_pointer := if ip ≥ genome_len then 0 else ip
    instructions_executed_this_frame := ex.instructions_executed_this_frame + 1 }

/-- Rust `GenomeExecutor::push_float`: drops the push when the stack
already holds 256 values. -/
def GenomeExecutor.push_float (ex : GenomeExecutor) (value : ℚ) : GenomeExecutor :=
  if ex.stack.length < 256 then { ex with stack := StackValue.Float value :: ex.stack } else ex

/-- Rust `GenomeExecutor::push_bool`: drops the push when the stack
already holds 256 values. -/
def GenomeExecutor.push_bool (ex : GenomeExecutor) (value : Bool) : GenomeExecutor :=
  if ex.stack.length < 256 then { ex with stack := StackValue.Bool value :: ex.stack } else ex

/-- Rust `self.stack.pop()`: removes and returns the top value. -/
def GenomeExecutor.pop (ex : GenomeExecutor) : Option StackValue × GenomeExecutor :=
  match ex.stack with
  | [] => (none, ex)
  | v :: rest => (some v, { ex with stack := rest })

/-- Rust `GenomeExecutor::pop_float`: `self.stack.pop()?.as_float()` — the
top value is removed even when it is not a `Float`. -/
def GenomeExecutor.pop_float (ex : GenomeExecutor) : Option ℚ × GenomeExecutor :=
  match ex.stack with
  | [] => (none, ex)
  | v :: rest => (v.as_float, { ex with stack := rest })

/-- Rust `GenomeExecutor::pop_bool`: `self.stack.pop()?.as_bool()` — the
top value is removed even when it is not a `Bool`. -/
def GenomeExecutor.pop_bool (ex : GenomeExecutor) : Option Bool × GenomeExecutor :=
  match ex.stack with
  | [] => (none, ex)
  | v :: rest => (v.as_bool, { ex with stack := rest })

/-- Rust `GenomeExecutor::peek`. -/
def GenomeExecutor.peek (ex : GenomeExecutor) : Option StackValue :=
  ex.stack.head?

/-! ## Jump- and label-table construction (src/genome.rs) -/

/-- Scan state of `build_jump_table`: the stack of open `If` positions, the
`else_positions` map (an association list; cons plus first-match lookup
realises `HashMap::insert` overwrite semantics) and the accumulated table. -/
structure JtState where
  ifStack : List ℕ
  elses : List (ℕ × ℕ)
  table : List (ℕ × Option ℕ × ℕ)
  deriving DecidableEq, Repr

/-- One iteration of the `build_jump_table` scan at position `i`. -/
def jtStep (st : JtState) (i : ℕ) (w : Word) : JtState :=
  match w with
  | .If => { st with ifStack := i :: st.ifStack }
  | .Else =>
    match st.ifStack with
    | [] => st
    | if_pos :: _ => { st with elses := (if_pos, i) :: st.elses }
  | .Then =>
    match st.ifStack with
    | [] => st
    | if_pos :: rest =>
      { st with
        ifStack := rest
        table := st.table ++ [(if_pos, (st.elses.lookup if_pos), i)] }
  | _ => st

/-- The enumerated left-to-right scan of `build_jump_table`, starting at
position `n`. -/
def jtScanFrom (n : ℕ) : List Word → JtState → JtState
  | [], st => st
  | w :: rest, st => jtScanFrom (n + 1) rest (jtStep st n w)

/-- Rust `GenomeExecutor::build_jump_table`, as a function of the genome
(the source clears and refills `self.jump_table`; the result depends only
on the genome). -/
def build_jump_table (g : List Word) : List (ℕ × Option ℕ × ℕ) :=
  (jtScanFrom 0 g ⟨[], [], []⟩).table

/-- One assignment of the `build_label_table` scan at position `i`. -/
def ltStep (tbl : Fin 4 → Option ℕ) (i : ℕ) (w : Word) : Fin 4 → Option ℕ :=
  match w with
  | .Label0 => fun k => if k = 0 then some i else tbl k
  | .Label1 => fun k => if k = 1 then some i else tbl k
  | .Label2 => fun k => if k = 2 then some i else tbl k
  | .Label3 => fun k => if k = 3 then some i else tbl k
  | _ => tbl

/-- The enumerated scan of `build_label_table` starting at position `n`. -/
def ltScanFrom (n : ℕ) : List Word → (Fin 4 → Option ℕ) → Fin 4 → Option ℕ
  | [], tbl => tbl
  | w :: rest, tbl => ltScanFrom (n + 1) rest (ltStep tbl n w)

/-- Rust `GenomeExecutor::build_label_table` as a function of the genome. -/
def build_label_table (g : List Word) : Fin 4 → Option ℕ :=
  ltScanFrom 0 g (fun _ => none)

/-! ## Host-side state (src/animal.rs, src/plant.rs) -/

/-- Rust `Animal` (the `age` field plays no part in word execution and is
omitted). -/
structure Animal where
  energy : ℕ

/-- Rust `Animal::add_energy`. -/
def Animal.add_energy (a : Animal) (amount : ℕ) : Animal :=
  { a with energy := a.energy + amount }

/-- Rust `Sensors`: four optional directional smell distances. -/
structure Sensors where
  smell_front : Option ℚ
  smell_back : Option ℚ
  smell_left : Option ℚ
  smell_right : Option ℚ

/-- A plant together with the translation of its `Transform` (a separate
component in the source, queried alongside the `Plant`). -/
structure Plant where
  pos : ℚ × ℚ
  energy : ℕ
  deriving DecidableEq, Repr

/-- Squared Euclidean distance; `dist2 p q ≤ EAT_DISTANCE ^ 2` is the
source's `p.distance(q) <= EAT_DISTANCE` without the square root. -/
def dist2 (p q : ℚ × ℚ) : ℚ :=
  (p.1 - q.1) ^ 2 + (p.2 - q.2) ^ 2

/-- Rust `f32::clamp` on `ℚ`. -/
def clampQ (x lo hi : ℚ) : ℚ :=
  if x < lo then lo else if x > hi then hi else x

/-- The agent's pose.  `translation` is the start-of-tick position; the
clamped movement distances (positive forward, negative backward) and the
clamped turn angles (positive left) produced by movement words are recorded
as pose-delta effects, newest first, because the source's quaternion
trigonometry is not exactly representable. -/
structure Transform where
  translation : ℚ × ℚ
  rotation_degrees : ℚ
  move_deltas : List ℚ

/-- The state read and written by `execute_word`: the executor, the animal,
its sensors and pose, and the plant query. -/
structure WorldState where
  executor : GenomeExecutor
  animal : Animal
  sensors : Sensors
  transform : Transform
  plants : List Plant

/-- Rust execution result of a single word. -/
inductive ExecutionResult where
  | Continue
  | Jump (target : ℕ)
  | Skip
  deriving DecidableEq, Repr

/-- The plant loop of `Word::Eat`: walk the plant query in order, and at
the first plant within `EAT_DISTANCE` transfer `min(plant.energy,
EAT_AMOUNT)`, despawn the plant if that left it at zero energy, and stop.
Returns the updated plant list and the transferred energy. -/
def eatScan (animal_pos : ℚ × ℚ) : List Plant → List Plant × ℕ
  | [] => ([], 0)
  | p :: rest =>
    if dist2 animal_pos p.pos ≤ EAT_DISTANCE ^ 2 then
      let energy_to_transfer := min p.energy EAT_AMOUNT
      let p' : Plant := { p with energy := p.energy - energy_to_transfer }
      (if p'.energy = 0 then rest else p' :: rest, energy_to_transfer)
    else
      let (rest', transferred) := eatScan animal_pos rest
      (p :: rest', transferred)

/-! ## Word execution (src/animal.rs, `execute_word`) -/

/-- Rust `execute_word`: one word against the world state.  Every arm of
the source returns `Ok`; the `Result` error type is kept to mirror the
signature (the fatal-error path is never produced). -/
def execute_word (word : Word) (s : WorldState) : Except Unit (ExecutionResult × WorldState) :=
  match word with
  | .Dup =>
    match s.executor.peek with
    | some val =>
      .ok (.Continue, { s with executor := { s.executor with stack := val :: s.executor.stack } })
    | none => .ok (.Skip, s)
  | .Drop =>
    let (_, ex) := s.executor.pop
    .ok (.Continue, { s with executor := ex })
  | .Swap =>
    let (b, ex1) := s.executor.pop
    let (a, ex2) := ex1.pop
    match b, a with
    | some b, some a =>
      .ok (.Continue, { s with executor := { ex2 with stack := a :: b :: ex2.stack } })
    | _, _ => .ok (.Skip, { s with executor := ex2 })
  | .Over =>
    if s.executor.stack.length ≥ 2 then
      match s.executor.stack.get? 1 with
      | some val =>
        .ok (.Continue, { s with executor := { s.executor with stack := val :: s.executor.stack } })
      | none => .ok (.Skip, s)
    else
      .ok (.Skip, s)
  | .Rot =>
    if s.executor.stack.length ≥ 3 then
      let (c, ex1) := s.executor.pop
      let (b, ex2) := ex1.pop
      let (a, ex3) := ex2.pop
      match c, b, a with
      | some c, some b, some a =>
        .ok (.Continue, { s with executor := { ex3 with stack := a :: c :: b :: ex3.stack } })
      | _, _, _ => .ok (.Skip, { s with executor := ex3 })
    else
      .ok (.Skip, s)
  | .PushFloat val => .ok (.Continue, { s with executor := s.executor.push_float val })
  | .PushBool val => .ok (.Continue, { s with executor := s.executor.push_bool val })
  | .SmellFront =>
    .ok (.Continue,
      { s with executor := s.executor.push_float (s.sensors.smell_front.getD 999999) })
  | .SmellBack =>
    .ok (.Continue,
      { s with executor := s.executor.push_float (s.sensors.smell_back.getD 999999) })
  | .SmellLeft =>
    .ok (.Continue,
      { s with executor := s.executor.push_float (s.sensors.smell_left.getD 999999) })
  | .SmellRight =>
    .ok (.Continue,
      { s with executor := s.executor.push_float (s.sensors.smell_right.getD 999999) })
  | .Energy =>
    .ok (.Continue, { s with executor := s.executor.push_float (s.animal.energy : ℚ) })
  | .Add =>
    let (b, ex1) := s.executor.pop_float
    let (a, ex2) := ex1.pop_float
    match b, a with
    | some b, some a => .ok (.Continue, { s with executor := ex2.push_float (a + b) })
    | _, _ => .ok (.Skip, { s with executor := ex2 })
  | .Sub =>
    let (b, ex1) := s.executor.pop_float
    let (a, ex2) := ex1.pop_float
    match b, a with
    | some b, some a => .ok (.Continue, { s with executor := ex2.push_float (a - b) })
    | _, _ => .ok (.Skip, { s with executor := ex2 })
  | .Mul =>
    let (b, ex1) := s.executor.pop_float
    let (a, ex2) := ex1.pop_float
    match b, a with
    | some b, some a => .ok (.Continue, { s with executor := ex2.push_float (a * b) })
    | _, _ => .ok (.Skip, { s with executor := ex2 })
  | .Div =>
    let (b, ex1) := s.executor.pop_float
    let (a, ex2) := ex1.pop_float
    match b, a with
    | some b, some a =>
      if b ≠ 0 then .ok (.Continue, { s with executor := ex2.push_float (a / b) })
      else .ok (.Continue, { s with executor := ex2.push_float 0 })
    | _, _ => .ok (.Skip, { s with executor := ex2 })
  | .Lt =>
    let (b, ex1) := s.executor.pop_float
    let (a, ex2) := ex1.pop_float
    match b, a with
    | some b, some a => .ok (.Continue, { s with executor := ex2.push_bool (decide (a < b)) })
    | _, _ => .ok (.Skip, { s with executor := ex2 })
  | .Gt =>
    let (b, ex1) := s.executor.pop_float
    let (a, ex2) := ex1.pop_float
    match b, a with
    | some b, some a => .ok (.Continue, { s with executor := ex2.push_bool (decide (a > b)) })
    | _, _ => .ok (.Skip, { s with executor := ex2 })
  | .Eq =>
    let (b, ex1) := s.executor.pop_float
    let (a, ex2) := ex1.pop_float
    match b, a with
    | some b, some a =>
      .ok (.Continue, { s with executor := ex2.push_bool (decide (|a - b| < 0.001)) })
    | _, _ => .ok (.Skip, { s with executor := ex2 })
  | .And =>
    let (b, ex1) := s.executor.pop_bool
    let (a, ex2) := ex1.pop_bool
    match b, a with
    | some b, some a => .ok (.Continue, { s with executor := ex2.push_bool (a && b) })
    | _, _ => .ok (.Skip, { s with executor := ex2 })
  | .Or =>
    let (b, ex1) := s.executor.pop_bool
    let (a, ex2) := ex1.pop_bool
    match b, a with
    | some b, some a => .ok (.Continue, { s with executor := ex2.push_bool (a || b) })
    | _, _ => .ok (.Skip, { s with executor := ex2 })
  | .Not =>
    let (a, ex1) := s.executor.pop_bool
    match a with
    | some a => .ok (.Continue, { s with executor := ex1.push_bool (!a) })
    | none => .ok (.Skip, { s with executor := ex1 })
  | .If =>
    let (cond, ex1) := s.executor.pop_bool
    let condition := cond.getD false
    let current_pos := ex1.instruction_pointer
    match ex1.jump_table.find? (fun e => e.1 = current_pos) with
    | some (_, else_pos, then_pos) =>
      if !condition then
        match else_pos with
        | some else_target => .ok (.Jump (else_target + 1), { s with executor := ex1 })
        | none => .ok (.Jump (then_pos + 1), { s with executor := ex1 })
      else
        .ok (.Continue, { s with executor := ex1 })
    | none => .ok (.Continue, { s with executor := ex1 })
  | .Else =>
    let current_pos := s.executor.instruction_pointer
    match s.executor.jump_table.find? (fun e => e.2.1 = some current_pos) with
    | some (_, _, then_pos) => .ok (.Jump (then_pos + 1), s)
    | none => .ok (.Continue, s)
  | .Then => .ok (.Continue, s)
  | .MoveForward =>
    let (d, ex1) := s.executor.pop_float
    match d with
    | some distance =>
      let clamped := clampQ (distance * (1/100)) (-MAX_MOVEMENT_SPEED) MAX_MOVEMENT_SPEED
      .ok (.Continue,
        { s with
          executor := ex1
          transform := { s.transform with move_deltas := clamped :: s.transform.move_deltas } })
    | none => .ok (.Skip, { s with executor := ex1 })
  | .MoveBackward =>
    let (d, ex1) := s.executor.pop_float
    match d with
    | some distance =>
      let clamped := clampQ (distance * (1/100)) (-MAX_MOVEMENT_SPEED) MAX_MOVEMENT_SPEED
      .ok (.Continue,
        { s with
          executor := ex1
          transform := { s.transform with move_deltas := -clamped :: s.transform.move_deltas } })
    | none => .ok (.Skip, { s with executor := ex1 })
  | .TurnLeft =>
    let (d, ex1) := s.executor.pop_float
    match d with
    | some degrees =>
      let clamped := clampQ (degrees * (1/100)) (-MAX_ANGULAR_VELOCITY) MAX_ANGULAR_VELOCITY
      .ok (.Continue,
        { s with
          executor := ex1
          transform :=
            { s.transform with rotation_degrees := clamped + s.transform.rotation_degrees } })
    | none => .ok (.Skip, { s with executor := ex1 })
  | .TurnRight =>
    let (d, ex1) := s.executor.pop_float
    match d with
    | some degrees =>
      let clamped := clampQ (degrees * (1/100)) (-MAX_ANGULAR_VELOCITY) MAX_ANGULAR_VELOCITY
      .ok (.Continue,
        { s with
          executor := ex1
          transform :=
            { s.transform with rotation_degrees := -clamped + s.transform.rotation_degrees } })
    | none => .ok (.Skip, { s with executor := ex1 })
  | .Eat =>
    let (plants', transferred) := eatScan s.transform.translation s.plants
    .ok (.Continue, { s with plants := plants', animal := s.animal.add_energy transferred })
  | .Split => .ok (.Continue, s)
  | .Label0 => .ok (.Continue, s)
  | .Label1 => .ok (.Continue, s)
  | .Label2 => .ok (.Continue, s)
  | .Label3 => .ok (.Continue, s)
  | .Jump0 =>
    match s.executor.label_table 0 with
    | some target => .ok (.Jump target, s)
    | none => .ok (.Continue, s)
  | .Jump1 =>
    match s.executor.label_table 1 with
    | some target => .ok (.Jump target, s)
    | none => .ok (.Continue, s)
  | .Jump2 =>
    match s.executor.label_table 2 with
    | some target => .ok (.Jump target, s)
    | none => .ok (.Continue, s)
  | .Jump3 =>
    match s.executor.label_table 3 with
    | some target => .ok (.Jump target, s)
    | none => .ok (.Continue, s)
  | .Nop => .ok (.Continue, s)

/-! ## The per-agent interpreter loop (src/animal.rs, `execute_genomes`) -/

/-- State of the `while executor.can_execute()` loop of `execute_genomes`
for one agent: the world state plus the loop-local flags; `broke` records
that a `break` was taken. -/
structure LoopState where
  ws : WorldState
  should_despawn : Bool
  should_split : Bool
  broke : Bool

/-- The continuation condition of the interpreter loop. -/
def loopCond (s : LoopState) : Prop :=
  s.broke = false ∧ s.ws.executor.can_execute

instance (s : LoopState) : Decidable (loopCond s) :=
  inferInstanceAs (Decidable (_ ∧ _))

/-- The body of one interpreter-loop iteration after the bounds wrap
produced `ex1`: fetch the word, handle `Split` specially (energy-gated,
with a `break`), otherwise dispatch on the `execute_word` result.  The
source indexes `genome.words[ip]`, which requires a non-empty genome; the
embedding fetches with a `Nop` default. -/
def loopStepCore (g : List Word) (s : LoopState) (ex1 : GenomeExecutor) : LoopState :=
  let word := g.getD ex1.instruction_pointer Word.Nop
  let ws1 := { s.ws with executor := ex1 }
  if word = Word.Split then
    if SPLIT_ENERGY_COST ≤ ws1.animal.energy then
      { s with
        ws := { ws1 with executor := ex1.advance g.length }
        should_split := true
        broke := true }
    else
      { s with ws := { ws1 with executor := ex1.advance g.length } }
  else
    match execute_word word ws1 with
    | .ok (.Continue, ws') =>
      { s with ws := { ws' with executor := ws'.executor.advance g.length } }
    | .ok (.Jump target, ws') =>
      { s with
        ws :=
          { ws' with
            executor :=
              { ws'.executor with
                instruction_pointer := target % g.length
                instructions_executed_this_frame :=
                  ws'.executor.instructions_executed_this_frame + 1 } } }
    | .ok (.Skip, ws') =>
      { s with ws := { ws' with executor := ws'.executor.advance g.length } }
    | .error _ => { s with should_despawn := true, broke := true }

/-- One iteration of the interpreter loop on genome `g`: clamp the pointer
into bounds by wraparound, then run the loop body. -/
def loopStep (g : List Word) (s : LoopState) : LoopState :=
  loopStepCore g s
    (if s.ws.executor.instruction_pointer ≥ g.length
     then { s.ws.executor with instruction_pointer := 0 }
     else s.ws.executor)

/-- The interpreter loop, fuelled: runs `loopStep` while `loopCond` holds
and fuel remains.  Enough fuel (the instruction budget) makes the fuel
bound irrelevant, which is the content of the termination claim. -/
def runLoop (g : List Word) : ℕ → LoopState → LoopState
  | 0, s => s
  | fuel + 1, s => if loopCond s then runLoop g fuel (loopStep g s) else s

/-! ## Documented operand requirements (src/genome.rs, `Word::stack_effect`) -/

/-- The operand kinds of the documented stack effects. -/
inductive OperandTy where
  | num
  | boolean
  | any
  deriving DecidableEq, Repr

/-- Whether a stack value satisfies an operand kind. -/
def tyMatches : OperandTy → StackValue → Bool
  | .num, .Float _ => true
  | .boolean, .Bool _ => true
  | .any, _ => true
  | _, _ => false

/-- Whether the stack (top first) supplies the listed operands. -/
def operandsOk : List OperandTy → List StackValue → Bool
  | [], _ => true
  | _ :: _, [] => false
  | t :: tr, v :: vr => tyMatches t v && operandsOk tr vr

/-- Operand requirements (top of stack first) read off the documented
stack effects `Word::stack_effect` in src/genome.rs: for example
`Add` is documented `( a b -- result )` over numerics, `And` is
`( bool bool -- bool )`, `If` is `( bool -- )`, movement words are
`( f32 -- )`. -/
def wordOperands : Word → List OperandTy
  | .Dup => [.any]
  | .Drop => [.any]
  | .Swap => [.any, .any]
  | .Over => [.any, .any]
  | .Rot => [.any, .any, .any]
  | .Add | .Sub | .Mul | .Div | .Lt | .Gt | .Eq => [.num, .num]
  | .And | .Or => [.boolean, .boolean]
  | .Not => [.boolean]
  | .If => [.boolean]
  | .MoveForward | .MoveBackward | .TurnLeft | .TurnRight => [.num]
  | _ => []

/-! ## Concrete states used by witnesses and counterexamples -/

/-- An executor with the given stack, fresh counters and a budget of 10. -/
def mkExecutor (st : List StackValue) : GenomeExecutor where
  instruction_pointer := 0
  stack := st
  instructions_executed_this_frame := 0
  max_instructions_per_frame := 10
  if_stack := []
  jump_table := []
  label_table := fun _ => none

/-- A world state with the given stack, plants and animal energy, the
animal at the origin with empty sensors. -/
def mkWorld (st : List StackValue) (plants : List Plant) (energy : ℕ) : WorldState where
  executor := mkExecutor st
  animal := ⟨energy⟩
  sensors := ⟨none, none, none, none⟩
  transform := ⟨(0, 0), 0, []⟩
  plants := plants

/-- A loop state over `mkWorld` with a custom instruction budget. -/
def mkLoopState (budget : ℕ) : LoopState where
  ws :=
    { mkWorld [] [] 100 with
      executor := { mkExecutor [] with max_instructions_per_frame := budget } }
  should_despawn := false
  should_split := false
  broke := false

/-- A mutation oracle on which every per-word draw misses its rate (all
draws return 99, and every rate is 1), so no deletion, substitution or
duplication fires. -/
def oracleNoEdits : MutOracle where
  del_draw := fun _ => 99
  mut_draw := fun _ => 99
  dup_draw := fun _ => 99
  rand_word := fun _ => Word.Nop
  fallback_word := Word.Nop

/-- A world state whose stack is exactly at the 256-value capacity. -/
def wsStack256 : WorldState := mkWorld (List.replicate 256 (StackValue.Bool true)) [] 10

/-- A world state for `Div` with a zero divisor, a dividend, and 256
further stacked values (a depth reachable through `Dup`'s unchecked
pushes), so the quotient push meets a full stack. -/
def wsDivDeep : WorldState :=
  mkWorld
    (StackValue.Float 0 :: StackValue.Float 1 :: List.replicate 256 (StackValue.Bool true))
    [] 10

/-- A world state for `Div` with just a zero divisor above a dividend. -/
def wsDivSmall : WorldState := mkWorld [StackValue.Float 0, StackValue.Float 5] [] 10

/-- A world state with a single `Float` on the stack. -/
def wsOneFloat : WorldState := mkWorld [StackValue.Float 1] [] 10

/-- A world state with the animal at the origin and two plants inside the
eating radius: the first listed at distance 9, the second at distance 1. -/
def wsTwoPlants : WorldState := mkWorld [] [⟨(9, 0), 30⟩, ⟨(1, 0), 30⟩] 0

/-- A world state with an out-of-range plant listed before an in-range
one. -/
def wsFarThenNear : WorldState := mkWorld [] [⟨(50, 0), 7⟩, ⟨(3, 0), 30⟩] 5

/-- Invariant of the `build_jump_table` scan after the first `n` positions:
the open-`If` stack holds positions of `If` words below `n` in strictly
decreasing order (head = most recently opened); every completed table entry
`(if, else?, then)` is well-formed, bounded by `n`, every `If` opened
strictly inside it is closed by an earlier `Then`, and its recorded `Else`
points at an `Else` word strictly inside the pair such that every `If`
opened between the entry's `If` and the `Else` has closed before the
`Else` (the `If` was the most recently opened unclosed one when the `Else`
was scanned); every `If` position seen so far is either still open or
already tabled; and every recorded `Else` association satisfies the same
most-recently-opened property. -/
def JtInv (g : List Word) (n : ℕ) (st : JtState) : Prop :=
  (∀ p ∈ st.ifStack, p < n ∧ g.get? p = some Word.If) ∧
  st.ifStack.Pairwise (· > ·) ∧
  (∀ e ∈ st.table,
    e.1 < e.2.2 ∧ e.2.2 < n ∧ g.get? e.1 = some Word.If ∧
    g.get? e.2.2 = some Word.Then ∧
    (∀ o, e.2.1 = some o → e.1 < o ∧ o < e.2.2 ∧ g.get? o = some Word.Else ∧
      (∀ j, e.1 < j → j < o → g.get? j = some Word.If →
        ∃ e2 ∈ st.table, e2.1 = j ∧ e2.2.2 < o)) ∧
    (∀ j, e.1 < j → j < e.2.2 → g.get? j = some Word.If →
      ∃ e2 ∈ st.table, e2.1 = j ∧ e2.2.2 < e.2.2)) ∧
  (∀ j, j < n → g.get? j = some Word.If →
    j ∈ st.ifStack ∨ ∃ e2 ∈ st.table, e2.1 = j) ∧
  (∀ pr ∈ st.elses, pr.1 < pr.2 ∧ pr.2 < n ∧ g.get? pr.2 = some Word.Else ∧
    (∀ j, pr.1 < j → j < pr.2 → g.get? j = some Word.If →
      ∃ e2 ∈ st.table, e2.1 = j ∧ e2.2.2 < pr.2))

/-! ## Lemmas on control-flow rebalancing -/

theorem count_removeFirstThen_of_ne (ws : List Word) (w : Word) (hw : w ≠ Word.Then) :
    (removeFirstThen ws).count w = ws.count w := by
  induction ws with
  | nil => rfl
  | cons x rest ih =>
    by_cases hx : x = Word.Then
    · subst hx
      simp [removeFirstThen, List.count_cons, hw]
    · simp [removeFirstThen, hx, List.count_cons, ih]

theorem count_removeFirstThen_then (ws : List Word) (h : Word.Then ∈ ws) :
    (removeFirstThen ws).count Word.Then + 1 = ws.count Word.Then := by
  induction ws with
  | nil => cases h
  | cons x rest ih =>
    by_cases hx : x = Word.Then
    · subst hx
      simp [removeFirstThen, List.count_cons]
    · have hmem : Word.Then ∈ rest := by
        cases h with
        | head => exact absurd rfl hx
        | tail _ h => exact h
      have ih' := ih hmem
      simp only [removeFirstThen, if_neg hx, List.count_cons]
      omega

theorem count_removeLastThen_of_ne (ws : List Word) (w : Word) (hw : w ≠ Word.Then) :
    (removeLastThen ws).count w = ws.count w := by
  simp [removeLastThen, List.count_reverse, count_removeFirstThen_of_ne _ _ hw]

theorem count_removeLastThen_then (ws : List Word) (h : Word.Then ∈ ws) :
    (removeLastThen ws).count Word.Then + 1 = ws.count Word.Then := by
  have h' : Word.Then ∈ ws.reverse := List.mem_reverse.mpr h
  have h2 := count_removeFirstThen_then ws.reverse h'
  calc (removeLastThen ws).count Word.Then + 1
      = (removeFirstThen ws.reverse).count Word.Then + 1 := by
        simp [removeLastThen, List.count_reverse]
    _ = ws.reverse.count Word.Then := h2
    _ = ws.count Word.Then := by simp [List.count_reverse]

theorem removeThens_balances (k : ℕ) :
    ∀ ws : List Word, ws.count Word.Then = ws.count Word.If + k →
      (removeThens k ws).count Word.If = ws.count Word.If ∧
      (removeThens k ws).count Word.Then = ws.count Word.If := by
  induction k with
  | zero => intro ws h; simpa [removeThens] using h
  | succ k ih =>
    intro ws h
    have hmem : Word.Then ∈ ws := by
      have : 0 < ws.count Word.Then := by omega
      exact List.count_pos_iff.mp this
    have hIf : (removeLastThen ws).count Word.If = ws.count Word.If :=
      count_removeLastThen_of_ne ws Word.If (by simp)
    have hThen : (removeLastThen ws).count Word.Then + 1 = ws.count Word.Then :=
      count_removeLastThen_then ws hmem
    have h' : (removeLastThen ws).count Word.Then = (removeLastThen ws).count Word.If + k := by
      omega
    have := ih (removeLastThen ws) h'
    simp only [removeThens]
    omega

theorem balance_control_flow_balanced (ws : List Word) :
    (balance_control_flow ws).count Word.If = (balance_control_flow ws).count Word.Then := by
  simp only [balance_control_flow]
  by_cases hc : ws.count Word.Then ≤ ws.count Word.If
  · have h0 : ws.count Word.Then - ws.count Word.If = 0 := Nat.sub_eq_zero_of_le hc
    rw [h0]
    simp only [removeThens]
    simp only [List.count_append, List.count_replicate]
    simp
    omega
  · have h1 : ws.count Word.If - ws.count Word.Then = 0 := by omega
    rw [h1]
    simp only [List.replicate_zero, List.append_nil]
    have h2 : ws.count Word.Then =
        ws.count Word.If + (ws.count Word.Then - ws.count Word.If) := by omega
    have h3 := removeThens_balances (ws.count Word.Then - ws.count Word.If) ws h2
    omega

/-- C2: for every input genome and every outcome of the random draws, the
genome returned by `Genome::mutate` contains exactly as many `If` words as
`Then` words. -/
theorem c2_mutate_if_then_balanced (o : MutOracle) (parent : List Word) :
    (Genome.mutate o parent).count Word.If = (Genome.mutate o parent).count Word.Then := by
  unfold Genome.mutate
  exact balance_control_flow_balanced _

/-- C3: evaluation of the code at the failing input.  On the parent genome
`[Then]` with every random draw missing its rate (no deletion, substitution
or duplication), `Genome::mutate` returns the empty genome: the emptiness
fallback runs before `balance_control_flow`, which then removes the lone
excess `Then`, contradicting the never-empty guarantee that the code's own
comment (`Ensure genome doesn't become empty`) documents. -/
theorem c3_mutate_yields_empty_genome :
    Genome.mutate oracleNoEdits [Word.Then] = [] := by
  decide

/-- C8: for every energy value `e`, both `GenomeExecutor::new(e)` and
`reset_for_frame(e)` set the per-tick instruction budget
`max_instructions_per_frame` to `min(e, 10)`: equal to `e` when `e < 10`
and exactly `10` when `e ≥ 10`. -/
theorem c8_budget_is_min_energy_ten (energy : ℕ) (ex : GenomeExecutor) :
    (GenomeExecutor.new energy).max_instructions_per_frame = min energy 10 ∧
    (ex.reset_for_frame energy).max_instructions_per_frame = min energy 10 ∧
    (energy < 10 → (GenomeExecutor.new energy).max_instructions_per_frame = energy) ∧
    (10 ≤ energy → (GenomeExecutor.new energy).max_instructions_per_frame = 10) := by
  refine ⟨?_, ?_, ?_, ?_⟩ <;>
    (simp [GenomeExecutor.new, GenomeExecutor.reset_for_frame, MAX_INSTRUCTIONS_PER_FRAME];
     try omega)

/-- Witness for C8 at concrete energies 3 and 12. -/
theorem c8_budget_is_min_energy_ten_witness :
    (GenomeExecutor.new 3).max_instructions_per_frame = 3 ∧
    (GenomeExecutor.new 12).max_instructions_per_frame = 10 ∧
    ((mkExecutor []).reset_for_frame 12).max_instructions_per_frame = min 12 10 :=
  ⟨(c8_budget_is_min_energy_ten 3 (mkExecutor [])).2.2.1 (by norm_num),
   (c8_budget_is_min_energy_ten 12 (mkExecutor [])).2.2.2 (by norm_num),
   (c8_budget_is_min_energy_ten 12 (mkExecutor [])).2.1⟩

/-- C10: a type-mismatched `pop_float` or `pop_bool` on a non-empty stack
returns no value yet still removes the top element. -/
theorem c10_pop_mismatch_consumes_operand :
    (∀ (ex : GenomeExecutor) (b : Bool) (rest : List StackValue),
        ex.stack = StackValue.Bool b :: rest →
        ex.pop_float = (none, { ex with stack := rest })) ∧
    (∀ (ex : GenomeExecutor) (v : ℚ) (rest : List StackValue),
        ex.stack = StackValue.Float v :: rest →
        ex.pop_bool = (none, { ex with stack := rest })) := by
  constructor <;>
    · intro ex x rest h
      simp only [GenomeExecutor.pop_float, GenomeExecutor.pop_bool]
      rw [h]
      simp [StackValue.as_float, StackValue.as_bool]

/-- Witness for C10: a `Bool` under `pop_float` and a `Float` under
`pop_bool`, both on singleton stacks. -/
theorem c10_pop_mismatch_consumes_operand_witness :
    (mkExecutor [StackValue.Bool true]).pop_float =
      (none, { mkExecutor [StackValue.Bool true] with stack := [] }) ∧
    (mkExecutor [StackValue.Float 1]).pop_bool =
      (none, { mkExecutor [StackValue.Float 1] with stack := [] }) :=
  ⟨c10_pop_mismatch_consumes_operand.1 (mkExecutor [StackValue.Bool true]) true [] rfl,
   c10_pop_mismatch_consumes_operand.2 (mkExecutor [StackValue.Float 1]) 1 [] rfl⟩

/-- C4 counterexample: `Dup` on a stack already at the 256-value capacity
pushes directly (bypassing `push_float`/`push_bool`), growing the stack to
257 values instead of dropping the push. -/
theorem c4_counterexample_dup_exceeds_capacity :
    (execute_word Word.Dup wsStack256).toOption.map
        (fun p => (p.1, p.2.executor.stack.length)) =
      some (ExecutionResult.Continue, 257) := by
  decide

/-- C4 (amended): pushes routed through `push_float`/`push_bool` are
silently dropped at the 256-value capacity (stack unchanged) and performed
below it, but `Dup` (and `Over`) push directly onto the stack without the
capacity check, so executing `Dup` on a stack of 256 values yields 257. -/
theorem c4_capacity_checked_pushes_only :
    (∀ (ex : GenomeExecutor) (v : ℚ), ¬ ex.stack.length < 256 → ex.push_float v = ex) ∧
    (∀ (ex : GenomeExecutor) (b : Bool), ¬ ex.stack.length < 256 → ex.push_bool b = ex) ∧
    (∀ (ex : GenomeExecutor) (v : ℚ), ex.stack.length < 256 →
        (ex.push_float v).stack = StackValue.Float v :: ex.stack) ∧
    (∀ (ex : GenomeExecutor) (b : Bool), ex.stack.length < 256 →
        (ex.push_bool b).stack = StackValue.Bool b :: ex.stack) ∧
    (∀ s : WorldState, s.executor.stack.length = 256 →
        ∃ s', execute_word Word.Dup s = .ok (.Continue, s') ∧
          s'.executor.stack.length = 257) := by
  refine ⟨?_, ?_, ?_, ?_, ?_⟩
  · intro ex v h; simp [GenomeExecutor.push_float, h]
  · intro ex b h; simp [GenomeExecutor.push_bool, h]
  · intro ex v h; simp [GenomeExecutor.push_float, h]
  · intro ex b h; simp [GenomeExecutor.push_bool, h]
  · intro s h
    rcases hst : s.executor.stack with _ | ⟨v, rest⟩
    · rw [hst] at h; simp at h
    · refine ⟨{ s with executor := { s.executor with stack := v :: s.executor.stack } }, ?_, ?_⟩
      · simp [execute_word, GenomeExecutor.peek, hst]
      · simp [List.length_cons, h]

/-- Witness for C4: `push_float` is dropped at capacity, performed on the
empty stack, and `Dup` at capacity reaches 257 values. -/
theorem c4_capacity_checked_pushes_only_witness :
    (mkExecutor (List.replicate 256 (StackValue.Bool true))).push_float 0 =
      mkExecutor (List.replicate 256 (StackValue.Bool true)) ∧
    ((mkExecutor []).push_float 0).stack = [StackValue.Float 0] ∧
    (∃ s', execute_word Word.Dup wsStack256 = .ok (.Continue, s') ∧
      s'.executor.stack.length = 257) :=
  ⟨c4_capacity_checked_pushes_only.1 _ 0 (by decide),
   c4_capacity_checked_pushes_only.2.2.1 _ 0 (by decide),
   c4_capacity_checked_pushes_only.2.2.2.2 wsStack256 (by decide)⟩

/-- C9 counterexample: `Div` with divisor 0 on a stack whose remainder
after the two pops still holds 256 values (reachable through `Dup`'s
unchecked pushes) drops the quotient push: the result is `Continue` but no
numeric 0 is pushed. -/
theorem c9_counterexample_zero_push_dropped :
    (execute_word Word.Div wsDivDeep).toOption.map
        (fun p => (p.1, p.2.executor.stack)) =
      some (ExecutionResult.Continue, List.replicate 256 (StackValue.Bool true)) ∧
    StackValue.Float 0 ∉ List.replicate 256 (StackValue.Bool true) := by
  constructor
  · decide
  · simp [List.mem_replicate]

/-- C9 (amended): `Div` on two numeric operands with divisor 0 returns
`Continue` and pushes the numeric 0 whenever the stack left by the two
pops is below the 256-value capacity (always the case when the stack
respects its capacity); at or above capacity the 0 push is silently
dropped.  `Div` never produces the fatal-error result, on any state. -/
theorem c9_div_by_zero_continues :
    (∀ (s : WorldState) (a : ℚ) (rest : List StackValue),
        s.executor.stack = StackValue.Float 0 :: StackValue.Float a :: rest →
        rest.length < 256 →
        ∃ s', execute_word Word.Div s = .ok (.Continue, s') ∧
          s'.executor.stack = StackValue.Float 0 :: rest) ∧
    (∀ (s : WorldState) (a : ℚ) (rest : List StackValue),
        s.executor.stack = StackValue.Float 0 :: StackValue.Float a :: rest →
        ¬ rest.length < 256 →
        ∃ s', execute_word Word.Div s = .ok (.Continue, s') ∧
          s'.executor.stack = rest) ∧
    (∀ s : WorldState, ∃ p, execute_word Word.Div s = .ok p) := by
  refine ⟨?_, ?_, ?_⟩
  · intro s a rest h hl
    refine ⟨{ s with executor := { s.executor with stack := StackValue.Float 0 :: rest } }, ?_, rfl⟩
    simp [execute_word, GenomeExecutor.pop_float, h, StackValue.as_float,
      GenomeExecutor.push_float, hl]
  · intro s a rest h hl
    refine ⟨{ s with executor := { s.executor with stack := rest } }, ?_, rfl⟩
    simp [execute_word, GenomeExecutor.pop_float, h, StackValue.as_float,
      GenomeExecutor.push_float, hl]
  · intro s
    rcases hst : s.executor.stack with _ | ⟨f1 | b1, _ | ⟨f2 | b2, rest⟩⟩ <;>
      (simp [execute_word, GenomeExecutor.pop_float, hst, StackValue.as_float];
       try (by_cases hz : f1 = 0 <;> simp [hz]))

/-- Witness for C9: divisor 0 over dividend 5 on a small stack pushes 0,
the deep stack drops the push, and `Div` on the empty stack does not
fault. -/
theorem c9_div_by_zero_continues_witness :
    (∃ s', execute_word Word.Div wsDivSmall = .ok (.Continue, s') ∧
      s'.executor.stack = [StackValue.Float 0]) ∧
    (∃ s', execute_word Word.Div wsDivDeep = .ok (.Continue, s') ∧
      s'.executor.stack = List.replicate 256 (StackValue.Bool true)) ∧
    (∃ p, execute_word Word.Div (mkWorld [] [] 10) = .ok p) :=
  ⟨c9_div_by_zero_continues.1 wsDivSmall 5 [] rfl (by decide),
   c9_div_by_zero_continues.2.1 wsDivDeep 1 (List.replicate 256 (StackValue.Bool true)) rfl
     (by decide),
   c9_div_by_zero_continues.2.2 (mkWorld [] [] 10)⟩

/-- C1 counterexample: `Add` (documented effect `( a b -- result )`) run
with a single operand yields `Skip`, but the operand stack is not as it
was before the word ran: the lone `Float` was consumed by the first
successful pop. -/
theorem c1_counterexample_skip_changes_stack :
    (execute_word Word.Add wsOneFloat).toOption.map
        (fun p => (p.1, p.2.executor.stack)) =
      some (ExecutionResult.Skip, ([] : List StackValue)) ∧
    wsOneFloat.executor.stack = [StackValue.Float 1] := by
  exact ⟨by decide, rfl⟩

/-- Every word execution succeeds (`execute_word` never returns the
fatal-error result) and leaves the instruction pointer, the per-frame
instruction counter and the budget untouched. -/
theorem execute_word_ok_preserves (w : Word) (s : WorldState) :
    ∃ r s', execute_word w s = .ok (r, s') ∧
      s'.executor.instruction_pointer = s.executor.instruction_pointer ∧
      s'.executor.instructions_executed_this_frame =
        s.executor.instructions_executed_this_frame ∧
      s'.executor.max_instructions_per_frame = s.executor.max_instructions_per_frame := by
  cases w <;>
    (rcases hst : s.executor.stack with
        _ | ⟨f1 | b1, _ | ⟨f2 | b2, _ | ⟨f3 | b3, rest⟩⟩⟩) <;>
    (simp only [execute_word, GenomeExecutor.pop_float, GenomeExecutor.pop_bool,
      GenomeExecutor.pop, GenomeExecutor.peek, GenomeExecutor.push_float,
      GenomeExecutor.push_bool, StackValue.as_float, StackValue.as_bool, hst]) <;>
    (repeat' split) <;>
    exact ⟨_, _, rfl, rfl, rfl, rfl⟩

/-- C1 (amended): for every word with a documented stack effect other than
`Drop` and `If`, executing with insufficient or wrongly-typed operands
yields `Skip` and the interpreter loop then advances the instruction
pointer by one (with wraparound); the stack, however, is not necessarily
unchanged — operands popped before the failure was detected are consumed
(`Drop` on an empty stack and `If` with a missing or non-boolean condition
return `Continue` instead, `If` treating the condition as false). -/
theorem c1_operand_error_yields_skip :
    (∀ (w : Word) (s : WorldState),
        operandsOk (wordOperands w) s.executor.stack = false →
        w ≠ Word.Drop → w ≠ Word.If →
        ∃ s', execute_word w s = .ok (.Skip, s')) ∧
    (∀ (g : List Word) (s : LoopState) (ws' : WorldState),
        s.ws.executor.instruction_pointer < g.length →
        g.getD s.ws.executor.instruction_pointer Word.Nop ≠ Word.Split →
        execute_word (g.getD s.ws.executor.instruction_pointer Word.Nop) s.ws =
          .ok (.Skip, ws') →
        (loopStep g s).ws.executor.instruction_pointer =
          (s.ws.executor.instruction_pointer + 1) % g.length ∧
        (loopStep g s).ws.executor.stack = ws'.executor.stack) := by
  constructor
  · intro w s hok hD hI
    cases w <;>
      (rcases hst : s.executor.stack with
          _ | ⟨f1 | b1, _ | ⟨f2 | b2, _ | ⟨f3 | b3, rest⟩⟩⟩ <;>
        simp_all [execute_word, wordOperands, operandsOk, tyMatches,
          GenomeExecutor.pop_float, GenomeExecutor.pop_bool, GenomeExecutor.pop,
          GenomeExecutor.peek, StackValue.as_float, StackValue.as_bool])
  · intro g s ws' hip hsplit hexec
    obtain ⟨r0, s0, hw, hip0, hc0, hm0⟩ :=
      execute_word_ok_preserves (g.getD s.ws.executor.instruction_pointer Word.Nop) s.ws
    have heq : (r0, s0) = (ExecutionResult.Skip, ws') := Except.ok.inj (hw.symm.trans hexec)
    have hs0 : s0 = ws' := congrArg Prod.snd heq
    subst hs0
    simp only [loopStep]
    rw [if_neg (show ¬ s.ws.executor.instruction_pointer ≥ g.length by omega)]
    simp only [loopStepCore]
    rw [if_neg hsplit, hexec]
    simp only [GenomeExecutor.advance, hip0]
    constructor
    · by_cases h2 : s.ws.executor.instruction_pointer + 1 ≥ g.length
      · have h3 : s.ws.executor.instruction_pointer + 1 = g.length := by omega
        simp [if_pos h2, h3, Nat.mod_self]
      · simp [if_neg h2, Nat.mod_eq_of_lt (show s.ws.executor.instruction_pointer + 1 <
          g.length by omega)]
    · trivial

/-- Witness for C1 (amended): `Mul` on a stack whose top is a `Bool`
Skips, and a Skipping `MoveForward` at pointer 0 of a three-word genome
advances the pointer to 1. -/
theorem c1_operand_error_yields_skip_witness :
    (∃ s', execute_word Word.Mul (mkWorld [StackValue.Bool true] [] 10) =
      .ok (.Skip, s')) ∧
    ((loopStep [Word.MoveForward, Word.Nop, Word.Nop]
        { ws := mkWorld [] [] 10
          should_despawn := false
          should_split := false
          broke := false }).ws.executor.instruction_pointer = 1 % 3 ∧
      (loopStep [Word.MoveForward, Word.Nop, Word.Nop]
        { ws := mkWorld [] [] 10
          should_despawn := false
          should_split := false
          broke := false }).ws.executor.stack = (mkWorld [] [] 10).executor.stack) := by
  constructor
  · exact c1_operand_error_yields_skip.1 Word.Mul (mkWorld [StackValue.Bool true] [] 10)
      (by decide) (by decide) (by decide)
  · exact c1_operand_error_yields_skip.2 [Word.MoveForward, Word.Nop, Word.Nop]
      { ws := mkWorld [] [] 10
        should_despawn := false
        should_split := false
        broke := false } (mkWorld [] [] 10) (by decide) (by decide) rfl

/-- C6 counterexample: with two resource sources inside the eating radius,
`Eat` transfers from the first plant in query-iteration order (distance 9)
and leaves the nearest one (distance 1) untouched, contradicting
nearest-source transfer. -/
theorem c6_counterexample_eats_first_not_nearest :
    (execute_word Word.Eat wsTwoPlants).toOption.map
        (fun p => (p.1, p.2.plants, p.2.animal.energy)) =
      some (ExecutionResult.Continue,
        [⟨(9, 0), 10⟩, ⟨(1, 0), 30⟩], 20) ∧
    dist2 wsTwoPlants.transform.translation (1, 0) <
      dist2 wsTwoPlants.transform.translation (9, 0) := by
  constructor
  · norm_num [execute_word, wsTwoPlants, mkWorld, mkExecutor, eatScan, dist2,
      EAT_DISTANCE, EAT_AMOUNT, Animal.add_energy, Except.toOption]
  · norm_num [dist2, wsTwoPlants, mkWorld, mkExecutor]

/-- The `Eat` plant loop transfers from the first in-range plant of the
list, removing it exactly when the transfer empties it. -/
theorem eatScan_first_in_range (pos : ℚ × ℚ) (p : Plant) (post : List Plant) :
    ∀ pre : List Plant,
      (∀ q ∈ pre, ¬ dist2 pos q.pos ≤ EAT_DISTANCE ^ 2) →
      dist2 pos p.pos ≤ EAT_DISTANCE ^ 2 →
      eatScan pos (pre ++ p :: post) =
        (pre ++ (if p.energy - min p.energy EAT_AMOUNT = 0
                 then post
                 else { p with energy := p.energy - min p.energy EAT_AMOUNT } :: post),
         min p.energy EAT_AMOUNT) := by
  intro pre
  induction pre with
  | nil =>
    intro _ hin
    simp [eatScan, hin]
  | cons q rest ih =>
    intro hpre hin
    have hq : ¬ dist2 pos q.pos ≤ EAT_DISTANCE ^ 2 := hpre q (by simp)
    have hrest : ∀ r ∈ rest, ¬ dist2 pos r.pos ≤ EAT_DISTANCE ^ 2 :=
      fun r hr => hpre r (by simp [hr])
    simp [eatScan, hq, ih hrest hin]

/-- C6 (amended): whenever `Eat` executes and at least one resource source
lies within `EAT_DISTANCE` (10) of the agent, energy is transferred — up to
`EAT_AMOUNT` (20) — from the *first in-range source in plant-query
iteration order* (not necessarily the nearest), and that source is removed
exactly when its energy is thereby fully depleted. -/
theorem c6_eat_transfers_from_first_in_range :
    ∀ (s : WorldState) (pre : List Plant) (p : Plant) (post : List Plant),
      s.plants = pre ++ p :: post →
      (∀ q ∈ pre, ¬ dist2 s.transform.translation q.pos ≤ EAT_DISTANCE ^ 2) →
      dist2 s.transform.translation p.pos ≤ EAT_DISTANCE ^ 2 →
      ∃ s', execute_word Word.Eat s = .ok (.Continue, s') ∧
        s'.animal.energy = s.animal.energy + min p.energy EAT_AMOUNT ∧
        s'.plants =
          pre ++ (if p.energy - min p.energy EAT_AMOUNT = 0
                  then post
                  else { p with energy := p.energy - min p.energy EAT_AMOUNT } :: post) ∧
        (p.energy - min p.energy EAT_AMOUNT = 0 ↔ p.energy ≤ EAT_AMOUNT) := by
  intro s pre p post hp hpre hin
  have hscan := eatScan_first_in_range s.transform.translation p post pre hpre hin
  refine ⟨{ s with
      plants := pre ++ (if p.energy - min p.energy EAT_AMOUNT = 0 then post
        else { p with energy := p.energy - min p.energy EAT_AMOUNT } :: post)
      animal := s.animal.add_energy (min p.energy EAT_AMOUNT) }, ?_, ?_, rfl, ?_⟩
  · simp [execute_word, hp, hscan]
  · simp [Animal.add_energy]
  · simp only [EAT_AMOUNT]
    omega

/-- Witness for C6 at a state with an out-of-range plant listed before an
in-range one of energy 30: the in-range plant drops to 10 and survives,
the animal gains 20. -/
theorem c6_eat_transfers_from_first_in_range_witness :
    ∃ s', execute_word Word.Eat wsFarThenNear = .ok (.Continue, s') ∧
      s'.animal.energy = wsFarThenNear.animal.energy + min 30 EAT_AMOUNT ∧
      s'.plants =
        [(⟨(50, 0), 7⟩ : Plant)] ++
          (if (30 : ℕ) - min 30 EAT_AMOUNT = 0 then []
           else ({ pos := (3, 0), energy := 30 - min 30 EAT_AMOUNT } : Plant) :: []) ∧
      ((30 : ℕ) - min 30 EAT_AMOUNT = 0 ↔ (30 : ℕ) ≤ EAT_AMOUNT) :=
  c6_eat_transfers_from_first_in_range wsFarThenNear [⟨(50, 0), 7⟩] ⟨(3, 0), 30⟩ []
    rfl
    (by
      intro q hq
      simp only [List.mem_singleton] at hq
      subst hq
      norm_num [dist2, EAT_DISTANCE, wsFarThenNear, mkWorld])
    (by norm_num [dist2, EAT_DISTANCE, wsFarThenNear, mkWorld])

/-! ## Lemmas on jump-table construction -/

theorem jtStep_other (st : JtState) (i : ℕ) (w : Word)
    (h1 : w ≠ Word.If) (h2 : w ≠ Word.Then) (h3 : w ≠ Word.Else) :
    jtStep st i w = st := by
  cases w <;> simp_all [jtStep]

theorem mem_of_lookup_eq_some {l : List (ℕ × ℕ)} {k v : ℕ} (h : l.lookup k = some v) :
    (k, v) ∈ l := by
  induction l with
  | nil => simp [List.lookup] at h
  | cons p rest ih =>
    rw [List.lookup] at h
    split at h
    · next heq =>
      have hk : k = p.1 := by simpa using heq
      have hv : p.2 = v := by cases h; rfl
      subst hk
      rw [← hv]
      left
    · exact List.mem_cons_of_mem _ (ih h)

theorem JtInv_bump (g : List Word) (n : ℕ) (st : JtState) (w : Word)
    (hw : g.get? n = some w) (hne : w ≠ Word.If) (hinv : JtInv g n st) :
    JtInv g (n + 1) st := by
  obtain ⟨h1, h2, h3, h4, h5⟩ := hinv
  refine ⟨?_, h2, ?_, ?_, ?_⟩
  · intro p hp
    exact ⟨by have := (h1 p hp).1; omega, (h1 p hp).2⟩
  · intro e he
    obtain ⟨a, b, c, d, f, hin⟩ := h3 e he
    exact ⟨a, by omega, c, d, f, hin⟩
  · intro j hj hIf
    rcases Nat.lt_succ_iff_lt_or_eq.mp hj with h | h
    · exact h4 j h hIf
    · subst h
      rw [hw] at hIf
      cases hIf
      exact absurd rfl hne
  · intro pr hpr
    obtain ⟨a, b, c, hcl⟩ := h5 pr hpr
    exact ⟨a, by omega, c, hcl⟩

theorem jtStep_inv (g : List Word) (n : ℕ) (st : JtState) (w : Word)
    (hw : g.get? n = some w) (hinv : JtInv g n st) :
    JtInv g (n + 1) (jtStep st n w) := by
  obtain ⟨stk, els, tbl⟩ := st
  cases w
  case If =>
    obtain ⟨h1, h2, h3, h4, h5⟩ := hinv
    refine ⟨?_, ?_, ?_, ?_, ?_⟩
    · intro p hp
      rcases List.mem_cons.mp hp with h | hp'
      · exact ⟨by omega, by rw [h]; exact hw⟩
      · exact ⟨by have := (h1 p hp').1; omega, (h1 p hp').2⟩
    · exact List.Pairwise.cons (fun p hp => (h1 p hp).1) h2
    · intro e he
      obtain ⟨a, b, c, d, f, hin⟩ := h3 e he
      exact ⟨a, by omega, c, d, f, hin⟩
    · intro j hj hIf
      rcases Nat.lt_succ_iff_lt_or_eq.mp hj with h | h
      · rcases h4 j h hIf with hin | hex
        · exact Or.inl (List.mem_cons_of_mem _ hin)
        · exact Or.inr hex
      · rw [h]
        exact Or.inl (List.mem_cons_self _ _)
    · intro pr hpr
      obtain ⟨a, b, c, hcl⟩ := h5 pr hpr
      exact ⟨a, by omega, c, hcl⟩
  case Else =>
    rcases stk with _ | ⟨p, rest⟩
    · exact JtInv_bump g n ⟨[], els, tbl⟩ _ hw (by decide) hinv
    · obtain ⟨h1, h2, h3, h4, h5⟩ := hinv
      have hp : p ∈ p :: rest := List.mem_cons_self _ _
      have hrest_lt : ∀ q ∈ rest, q < p := (List.pairwise_cons.mp h2).1
      refine ⟨?_, h2, ?_, ?_, ?_⟩
      · intro q hq
        exact ⟨by have := (h1 q hq).1; omega, (h1 q hq).2⟩
      · intro e he
        obtain ⟨a, b, c, d, f, hin⟩ := h3 e he
        exact ⟨a, by omega, c, d, f, hin⟩
      · intro j hj hIf
        rcases Nat.lt_succ_iff_lt_or_eq.mp hj with h | h
        · exact h4 j h hIf
        · rw [h, hw] at hIf
          cases hIf
      · intro pr hpr
        rcases List.mem_cons.mp hpr with rfl | hpr'
        · refine ⟨(h1 p hp).1, Nat.lt_succ_self n, hw, ?_⟩
          intro j hj1 hj2 hjIf
          rcases h4 j hj2 hjIf with hin | ⟨e2, he2, hje⟩
          · rcases List.mem_cons.mp hin with h | hinr
            · exact absurd hj1 (by omega)
            · have := hrest_lt j hinr
              exact absurd hj1 (by omega)
          · have hb := h3 e2 he2
            exact ⟨e2, he2, hje, hb.2.1⟩
        · obtain ⟨a, b, c, hcl⟩ := h5 pr hpr'
          exact ⟨a, by omega, c, hcl⟩
  case Then =>
    rcases stk with _ | ⟨p, rest⟩
    · exact JtInv_bump g n ⟨[], els, tbl⟩ _ hw (by decide) hinv
    · obtain ⟨h1, h2, h3, h4, h5⟩ := hinv
      have hp : p ∈ p :: rest := List.mem_cons_self _ _
      have hpn : p < n := (h1 p hp).1
      have hpIf : g.get? p = some Word.If := (h1 p hp).2
      have hpair := List.pairwise_cons.mp h2
      have hrest_lt : ∀ q ∈ rest, q < p := hpair.1
      refine ⟨?_, hpair.2, ?_, ?_, ?_⟩
      · intro q hq
        have hq' : q ∈ p :: rest := List.mem_cons_of_mem _ hq
        exact ⟨by have := (h1 q hq').1; omega, (h1 q hq').2⟩
      · intro e he
        rcases List.mem_append.mp he with hold | hnew
        · obtain ⟨a, b, c, d, f, hin⟩ := h3 e hold
          refine ⟨a, by omega, c, d, ?_, ?_⟩
          · intro o ho
            obtain ⟨x, y, z, hcl⟩ := f o ho
            refine ⟨x, y, z, ?_⟩
            intro j hj1 hj2 hjIf
            obtain ⟨e2, he2, hje, hlt⟩ := hcl j hj1 hj2 hjIf
            exact ⟨e2, List.mem_append_left _ he2, hje, hlt⟩
          · intro j hj1 hj2 hjIf
            obtain ⟨e2, he2, hje, hlt⟩ := hin j hj1 hj2 hjIf
            exact ⟨e2, List.mem_append_left _ he2, hje, hlt⟩
        · rw [List.mem_singleton] at hnew
          subst hnew
          refine ⟨hpn, Nat.lt_succ_self n, hpIf, hw, ?_, ?_⟩
          · intro o ho
            have hmem := mem_of_lookup_eq_some ho
            obtain ⟨x, y, z, hcl⟩ := h5 (p, o) hmem
            refine ⟨x, y, z, ?_⟩
            intro j hj1 hj2 hjIf
            obtain ⟨e2, he2, hje, hlt⟩ := hcl j hj1 hj2 hjIf
            exact ⟨e2, List.mem_append_left _ he2, hje, hlt⟩
          · intro j hj1 hj2 hjIf
            rcases h4 j hj2 hjIf with hin | ⟨e2, he2, hje⟩
            · rcases List.mem_cons.mp hin with rfl | hinr
              · exact absurd hj1 (by omega)
              · have := hrest_lt j hinr
                exact absurd hj1 (by omega)
            · have hb := h3 e2 he2
              exact ⟨e2, List.mem_append_left _ he2, hje, hb.2.1⟩
      · intro j hj hjIf
        rcases Nat.lt_succ_iff_lt_or_eq.mp hj with h | h
        · rcases h4 j h hjIf with hin | ⟨e2, he2, hje⟩
          · rcases List.mem_cons.mp hin with rfl | hinr
            · exact Or.inr ⟨(j, els.lookup j, n),
                List.mem_append_right _ (List.mem_singleton.mpr rfl), rfl⟩
            · exact Or.inl hinr
          · exact Or.inr ⟨e2, List.mem_append_left _ he2, hje⟩
        · rw [h, hw] at hjIf
          cases hjIf
      · intro pr hpr
        obtain ⟨a, b, c, hcl⟩ := h5 pr hpr
        refine ⟨a, by omega, c, ?_⟩
        intro j hj1 hj2 hjIf
        obtain ⟨e2, he2, hje, hlt⟩ := hcl j hj1 hj2 hjIf
        exact ⟨e2, List.mem_append_left _ he2, hje, hlt⟩
  all_goals
    exact JtInv_bump g n ⟨stk, els, tbl⟩ _ hw (by simp) hinv

theorem jtScanFrom_inv (g : List Word) :
    ∀ (l : List Word) (n : ℕ) (st : JtState),
      g.drop n = l → JtInv g n st →
      JtInv g (n + l.length) (jtScanFrom n l st) := by
  intro l
  induction l with
  | nil =>
    intro n st _ hinv
    simpa using hinv
  | cons w rest ih =>
    intro n st hdrop hinv
    have hw : g.get? n = some w := by
      have h2 : (g.drop n)[0]? = some w := by rw [hdrop]; simp
      rw [List.getElem?_drop] at h2
      simpa [List.get?_eq_getElem?] using h2
    have hdrop' : g.drop (n + 1) = rest := by
      have h3 : g.drop (n + 1) = (g.drop n).drop 1 := by rw [List.drop_drop]
      rw [h3, hdrop]
      rfl
    have hstep := jtStep_inv g n st w hw hinv
    have hres := ih (n + 1) (jtStep st n w) hdrop' hstep
    have harith : n + (w :: rest).length = n + 1 + rest.length := by
      simp
      omega
    rw [harith]
    simpa [jtScanFrom] using hres

theorem build_jump_table_inv (g : List Word) :
    JtInv g g.length (jtScanFrom 0 g ⟨[], [], []⟩) := by
  have h0 : JtInv g 0 ⟨[], [], []⟩ := by
    refine ⟨by simp, List.Pairwise.nil, by simp, ?_, by simp⟩
    intro j hj _
    omega
  have := jtScanFrom_inv g g 0 ⟨[], [], []⟩ (by simp) h0
  simpa using this

/-- C5: `build_jump_table` matches each `Then` with the innermost open
`If`.  On `If A Then If B Else C Then` (positions 0..7, with `A`, `B`, `C`
not control words) it yields exactly the entries `(0, none, 2)` and
`(3, some 5, 7)`; in general, every `If` opened strictly inside a tabled
`(if, else?, then)` pair is closed by an earlier `Then` (a `Then` closes
the most recently opened unclosed `If`), and every recorded `Else`
association lies strictly between its `If` and its `Then` on an `Else`
word with every `If` opened after the entry's `If` already closed before
the `Else` — so at the `Else`'s position the entry's `If` is the most
recently opened unclosed `If`. -/
theorem c5_jump_table_innermost_matching :
    (∀ A B C : Word,
        A ≠ Word.If ∧ A ≠ Word.Then ∧ A ≠ Word.Else →
        B ≠ Word.If ∧ B ≠ Word.Then ∧ B ≠ Word.Else →
        C ≠ Word.If ∧ C ≠ Word.Then ∧ C ≠ Word.Else →
        build_jump_table
            [Word.If, A, Word.Then, Word.If, B, Word.Else, C, Word.Then] =
          [(0, none, 2), (3, some 5, 7)]) ∧
    (∀ (g : List Word) (i : ℕ) (e : Option ℕ) (t : ℕ),
        (i, e, t) ∈ build_jump_table g →
        i < t ∧ g.get? i = some Word.If ∧ g.get? t = some Word.Then ∧
        (∀ j, i < j → j < t → g.get? j = some Word.If →
          ∃ e2 t2, (j, e2, t2) ∈ build_jump_table g ∧ t2 < t)) ∧
    (∀ (g : List Word) (i e t : ℕ),
        (i, some e, t) ∈ build_jump_table g →
        i < e ∧ e < t ∧ g.get? e = some Word.Else ∧
        (∀ j, i < j → j < e → g.get? j = some Word.If →
          ∃ e2 t2, (j, e2, t2) ∈ build_jump_table g ∧ t2 < e)) := by
  refine ⟨?_, ?_, ?_⟩
  · intro A B C hA hB hC
    obtain ⟨hA1, hA2, hA3⟩ := hA
    obtain ⟨hB1, hB2, hB3⟩ := hB
    obtain ⟨hC1, hC2, hC3⟩ := hC
    simp only [build_jump_table, jtScanFrom]
    rw [jtStep_other _ _ _ hA1 hA2 hA3, jtStep_other _ _ _ hB1 hB2 hB3,
      jtStep_other _ _ _ hC1 hC2 hC3]
    rfl
  · intro g i e t hmem
    obtain ⟨_, _, h3, _, _⟩ := build_jump_table_inv g
    obtain ⟨a, _, c, d, _, hin⟩ := h3 (i, e, t) hmem
    refine ⟨a, c, d, ?_⟩
    intro j hj1 hj2 hjIf
    obtain ⟨e2, he2, hje, hlt⟩ := hin j hj1 hj2 hjIf
    refine ⟨e2.2.1, e2.2.2, ?_, hlt⟩
    rw [← hje]
    exact he2
  · intro g i e t hmem
    obtain ⟨_, _, h3, _, _⟩ := build_jump_table_inv g
    obtain ⟨_, _, _, _, f, _⟩ := h3 (i, some e, t) hmem
    obtain ⟨a, b, c, hcl⟩ := f e rfl
    refine ⟨a, b, c, ?_⟩
    intro j hj1 hj2 hjIf
    obtain ⟨e2, he2, hje, hlt⟩ := hcl j hj1 hj2 hjIf
    refine ⟨e2.2.1, e2.2.2, ?_, hlt⟩
    rw [← hje]
    exact he2

/-- Witness for C5: the documented example with `Nop` placeholders, the
genome `[If, If, Then, Then]` whose inner `If` at 1 closes at 2 before the
outer pair `(0, none, 3)`, the `Else` entry of the example, and the genome
`[If, If, Then, Else, Then]` whose entry `(0, some 3, 4)` has the inner
`If` at 1 closed before the `Else` at 3. -/
theorem c5_jump_table_innermost_matching_witness :
    build_jump_table
        [Word.If, Word.Nop, Word.Then, Word.If, Word.Nop, Word.Else, Word.Nop,
          Word.Then] =
      [(0, none, 2), (3, some 5, 7)] ∧
    (∃ e2 t2,
        (1, e2, t2) ∈ build_jump_table [Word.If, Word.If, Word.Then, Word.Then] ∧
        t2 < 3) ∧
    (3 < 5 ∧ 5 < 7 ∧
      [Word.If, Word.Nop, Word.Then, Word.If, Word.Nop, Word.Else, Word.Nop,
          Word.Then].get? 5 = some Word.Else) ∧
    (∃ e2 t2,
        (1, e2, t2) ∈
          build_jump_table [Word.If, Word.If, Word.Then, Word.Else, Word.Then] ∧
        t2 < 3) :=
  ⟨c5_jump_table_innermost_matching.1 Word.Nop Word.Nop Word.Nop
      (by decide) (by decide) (by decide),
   (c5_jump_table_innermost_matching.2.1 [Word.If, Word.If, Word.Then, Word.Then]
      0 none 3 (by decide)).2.2.2 1 (by decide) (by decide) (by decide),
   (fun h => ⟨h.1, h.2.1, h.2.2.1⟩)
     (c5_jump_table_innermost_matching.2.2
       [Word.If, Word.Nop, Word.Then, Word.If, Word.Nop, Word.Else, Word.Nop,
         Word.Then] 3 5 7 (by decide)),
   (c5_jump_table_innermost_matching.2.2
       [Word.If, Word.If, Word.Then, Word.Else, Word.Then] 0 3 4
       (by decide)).2.2.2 1 (by decide) (by decide) (by decide)⟩

/-! ## Lemmas on the interpreter loop -/

theorem loopStepCore_increments (g : List Word) (s : LoopState) (ex1 : GenomeExecutor) :
    (loopStepCore g s ex1).ws.executor.instructions_executed_this_frame =
      ex1.instructions_executed_this_frame + 1 ∧
    (loopStepCore g s ex1).ws.executor.max_instructions_per_frame =
      ex1.max_instructions_per_frame := by
  simp only [loopStepCore]
  split
  · split <;> simp [GenomeExecutor.advance]
  · obtain ⟨r0, s0, hw, _, hc0, hm0⟩ :=
      execute_word_ok_preserves (g.getD ex1.instruction_pointer Word.Nop)
        { s.ws with executor := ex1 }
    rw [hw]
    cases r0 <;> simp [GenomeExecutor.advance, hc0, hm0]

theorem loopStep_increments (g : List Word) (t : LoopState) :
    (loopStep g t).ws.executor.instructions_executed_this_frame =
      t.ws.executor.instructions_executed_this_frame + 1 ∧
    (loopStep g t).ws.executor.max_instructions_per_frame =
      t.ws.executor.max_instructions_per_frame := by
  by_cases hc : t.ws.executor.instruction_pointer ≥ g.length
  · simp only [loopStep, if_pos hc]
    simpa using loopStepCore_increments g t { t.ws.executor with instruction_pointer := 0 }
  · simp only [loopStep, if_neg hc]
    exact loopStepCore_increments g t t.ws.executor

theorem runLoop_of_not_cond (g : List Word) :
    ∀ (fuel : ℕ) (s : LoopState), ¬ loopCond s → runLoop g fuel s = s
  | 0, _, _ => rfl
  | fuel + 1, s, h => by simp [runLoop, h]

theorem runLoop_stops (g : List Word) :
    ∀ (fuel : ℕ) (s : LoopState),
      s.ws.executor.max_instructions_per_frame -
          s.ws.executor.instructions_executed_this_frame ≤ fuel →
      ¬ loopCond (runLoop g fuel s) := by
  intro fuel
  induction fuel with
  | zero =>
    intro s h
    simp only [runLoop]
    intro hcond
    have h2 := hcond.2
    simp only [GenomeExecutor.can_execute] at h2
    omega
  | succ n ih =>
    intro s h
    simp only [runLoop]
    by_cases hc : loopCond s
    · rw [if_pos hc]
      apply ih
      obtain ⟨h1, h2⟩ := loopStep_increments g s
      have h3 := hc.2
      simp only [GenomeExecutor.can_execute] at h3
      omega
    · rw [if_neg hc]
      exact hc

theorem runLoop_counter_le (g : List Word) :
    ∀ (fuel : ℕ) (s : LoopState),
      s.ws.executor.instructions_executed_this_frame ≤
          s.ws.executor.max_instructions_per_frame →
      (runLoop g fuel s).ws.executor.instructions_executed_this_frame ≤
        s.ws.executor.max_instructions_per_frame := by
  intro fuel
  induction fuel with
  | zero => intro s h; simpa [runLoop] using h
  | succ n ih =>
    intro s h
    simp only [runLoop]
    by_cases hc : loopCond s
    · rw [if_pos hc]
      obtain ⟨h1, h2⟩ := loopStep_increments g s
      have h3 := hc.2
      simp only [GenomeExecutor.can_execute] at h3
      have h4 := ih (loopStep g s) (by omega)
      omega
    · rw [if_neg hc]
      exact h

theorem runLoop_add (g : List Word) :
    ∀ (f1 f2 : ℕ) (s : LoopState), runLoop g (f1 + f2) s = runLoop g f2 (runLoop g f1 s) := by
  intro f1
  induction f1 with
  | zero => intro f2 s; simp [runLoop]
  | succ n ih =>
    intro f2 s
    rw [Nat.succ_add]
    simp only [runLoop]
    by_cases hc : loopCond s
    · rw [if_pos hc, if_pos hc, ih]
    · rw [if_neg hc, if_neg hc, runLoop_of_not_cond g f2 s hc]

/-- C7: one iteration of the interpreter loop — `Continue`, `Jump` or
`Skip`, including both branches of `Split` — increments
`instructions_executed_this_frame` by exactly one and keeps the budget;
the counter never exceeds the budget; and once the budget's worth of fuel
is spent the loop condition is false and any further fuel leaves the state
unchanged, so `max_instructions_per_frame` is a hard upper bound on
iterations per agent per tick. -/
theorem c7_budget_bounds_iterations (g : List Word) (s : LoopState) :
    (∀ t : LoopState,
        (loopStep g t).ws.executor.instructions_executed_this_frame =
          t.ws.executor.instructions_executed_this_frame + 1 ∧
        (loopStep g t).ws.executor.max_instructions_per_frame =
          t.ws.executor.max_instructions_per_frame) ∧
    (s.ws.executor.instructions_executed_this_frame ≤
        s.ws.executor.max_instructions_per_frame →
      ∀ fuel : ℕ,
        (runLoop g fuel s).ws.executor.instructions_executed_this_frame ≤
          s.ws.executor.max_instructions_per_frame) ∧
    (∀ fuel : ℕ,
        s.ws.executor.max_instructions_per_frame -
            s.ws.executor.instructions_executed_this_frame ≤ fuel →
        ¬ loopCond (runLoop g fuel s) ∧
          runLoop g fuel s =
            runLoop g
              (s.ws.executor.max_instructions_per_frame -
                s.ws.executor.instructions_executed_this_frame) s) := by
  refine ⟨fun t => loopStep_increments g t, fun h fuel => runLoop_counter_le g fuel s h,
    fun fuel hf => ⟨runLoop_stops g fuel s hf, ?_⟩⟩
  have hsplit : fuel =
      (s.ws.executor.max_instructions_per_frame -
        s.ws.executor.instructions_executed_this_frame) +
      (fuel - (s.ws.executor.max_instructions_per_frame -
        s.ws.executor.instructions_executed_this_frame)) := by omega
  rw [hsplit, runLoop_add]
  exact runLoop_of_not_cond g _ _ (runLoop_stops g _ s (Nat.le_refl _))

/-- Witness for C7 on the genome `[Nop]` with a budget of 2 and fuel 5. -/
theorem c7_budget_bounds_iterations_witness :
    (loopStep [Word.Nop] (mkLoopState 2)).ws.executor.instructions_executed_this_frame =
      (mkLoopState 2).ws.executor.instructions_executed_this_frame + 1 ∧
    (runLoop [Word.Nop] 5 (mkLoopState 2)).ws.executor.instructions_executed_this_frame ≤
      (mkLoopState 2).ws.executor.max_instructions_per_frame ∧
    ¬ loopCond (runLoop [Word.Nop] 5 (mkLoopState 2)) :=
  ⟨((c7_budget_bounds_iterations [Word.Nop] (mkLoopState 2)).1 (mkLoopState 2)).1,
   (c7_budget_bounds_iterations [Word.Nop] (mkLoopState 2)).2.1 (by decide) 5,
   ((c7_budget_bounds_iterations [Word.Nop] (mkLoopState 2)).2.2 5 (by decide)).1⟩

end EvoRs
